import Mathlib

/-!
Shallow embedding of the notidock notification throttler (throttler.go and
config/config.go), together with proofs of its specified properties.

Time is modelled as integer seconds (Go uses `time.Time` / `time.Duration`;
every comparison in the source is scale-invariant, and the constructor's
fixed 5-second bucket width becomes the integer 5).  `time.Time.Truncate`
rounds down to a multiple of the duration, which for a positive divisor is
floor division (`Int.ediv`).  The Go map `map[containerKey]*throttleState`
is modelled as a function `containerKey → Option throttleState`; Go mutates
the stored state through a pointer, so the functional model stores the final
state value at the key.
-/

namespace Notidock

/-- Go `containerKey` (throttler.go): value-compared composite key. -/
structure containerKey where
  name : String
  imageTag : String
deriving DecidableEq, Repr

/-- Go `eventBucket` (throttler.go): one fixed-width counting bucket. -/
structure eventBucket where
  timestamp : Int
  count : Int
deriving DecidableEq, Repr

/-- Go `throttleState` (throttler.go): per-key mutable throttling record. -/
structure throttleState where
  buckets : List eventBucket
  suspended : Bool
  suspendedAt : Int
  bucketDuration : Int
deriving DecidableEq, Repr

/-- Go `NotificationThrottler` (throttler.go).  The mutex is a concurrency
artifact with no sequential content; the map is a total function to
`Option`. -/
structure NotificationThrottler where
  state : containerKey → Option throttleState
  windowDuration : Int
  bucketDuration : Int
  threshold : Int
  cooldownPeriod : Int
  cleanupInterval : Int

/-- The throttling-relevant fields of Go `config.AppConfig`
(config/config.go). -/
structure AppConfig where
  WindowDuration : Int
  EventThreshold : Int
  NotificationCooldown : Int
deriving DecidableEq, Repr

/-- Go `NewNotificationThrottler` (throttler.go lines 37-46): empty state
map, fixed 5-second buckets, hourly cleanup. -/
def NewNotificationThrottler (c : AppConfig) : NotificationThrottler :=
  { state := fun _ => none
    windowDuration := c.WindowDuration
    bucketDuration := 5
    threshold := c.EventThreshold
    cooldownPeriod := c.NotificationCooldown
    cleanupInterval := 3600 }

/-- Go `time.Time.Truncate`: identity for a non-positive duration, otherwise
rounding down to a multiple of `d` (floor division, since `Int.ediv` floors
for a positive divisor). -/
def goTruncate (t d : Int) : Int :=
  if d ≤ 0 then t else d * (t / d)

/-- The fresh state allocated on first sight of a key
(throttler.go lines 61-68): empty buckets, not suspended, zero time. -/
def freshState (bd : Int) : throttleState :=
  { buckets := [], suspended := false, suspendedAt := 0, bucketDuration := bd }

/-- Store a state value at a key (Go `nt.state[key] = state` combined with
the in-place mutations through the map's pointer). -/
def setState (nt : NotificationThrottler) (key : containerKey)
    (s : throttleState) : NotificationThrottler :=
  { nt with state := fun k => if k = key then some s else nt.state k }

/-- Sum of the counts of a bucket list (the accumulation of `totalEvents`
in throttler.go lines 83-89). -/
def bucketsTotal (bs : List eventBucket) : Int :=
  (bs.map (fun b => b.count)).sum

/-- Go throttler.go lines 93-114: find the first bucket whose timestamp
equals `t` and increment its count; if none exists, append a new bucket with
count 1 (Go appends with count 0 and then increments it). -/
def incrementBucket : List eventBucket → Int → List eventBucket
  | [], t => [{ timestamp := t, count := 1 }]
  | b :: rest, t =>
    if b.timestamp = t then { b with count := b.count + 1 } :: rest
    else b :: incrementBucket rest t

/-- Go throttler.go lines 80-123: prune buckets at or before
`now - windowDuration`, record the current event in the bucket at
`now.Truncate(bucketDuration)`, and compare the in-window total against the
threshold, suspending on overflow. -/
def recordEvent (nt : NotificationThrottler) (s : throttleState) (now : Int) :
    Bool × throttleState :=
  let cutoff := now - nt.windowDuration
  let newBuckets := s.buckets.filter (fun b => decide (cutoff < b.timestamp))
  let totalEvents := bucketsTotal newBuckets
  let currentBucketTime := goTruncate now nt.bucketDuration
  let buckets2 := incrementBucket newBuckets currentBucketTime
  if nt.threshold < totalEvents + 1 then
    (false, { s with buckets := buckets2, suspended := true, suspendedAt := now })
  else
    (true, { s with buckets := buckets2 })

/-- Go `ShouldNotify` (throttler.go lines 48-124), with the call's
`time.Now()` passed explicitly as `now`.  Returns the decision and the
updated throttler. -/
def ShouldNotify (nt : NotificationThrottler) (containerName imageTag : String)
    (now : Int) : Bool × NotificationThrottler :=
  if nt.threshold ≤ 0 then
    (true, nt)
  else
    let key : containerKey := { name := containerName, imageTag := imageTag }
    let s0 := (nt.state key).getD (freshState nt.bucketDuration)
    if s0.suspended then
      if nt.cooldownPeriod ≤ now - s0.suspendedAt then
        let r := recordEvent nt { s0 with suspended := false, buckets := [] } now
        (r.1, setState nt key r.2)
      else
        (false, setState nt key s0)
    else
      let r := recordEvent nt s0 now
      (r.1, setState nt key r.2)

/-- Eviction test of Go `cleanup` (throttler.go lines 142-156): every bucket
at or before `now - windowDuration`, and not suspended or the suspension
strictly older than the cooldown period. -/
def staleEntity (nt : NotificationThrottler) (now : Int) (s : throttleState) :
    Bool :=
  s.buckets.all (fun b => decide (b.timestamp ≤ now - nt.windowDuration)) &&
    (!s.suspended || decide (nt.cooldownPeriod < now - s.suspendedAt))

/-- Go `cleanup` (throttler.go lines 135-158): delete every stale entity
from the state map. -/
def cleanup (nt : NotificationThrottler) (now : Int) : NotificationThrottler :=
  { nt with state := fun k =>
      match nt.state k with
      | none => none
      | some s => if staleEntity nt now s then none else some s }

/-- Run a sequence of `ShouldNotify` calls for one key, keeping the final
throttler. -/
def runCalls (nt : NotificationThrottler) (n i : String) (ts : List Int) :
    NotificationThrottler :=
  ts.foldl (fun acc t => (ShouldNotify acc n i t).2) nt

/-- Run a sequence of `ShouldNotify` calls for one key, collecting the
decisions. -/
def runResults (nt : NotificationThrottler) (n i : String) :
    List Int → List Bool
  | [] => []
  | t :: rest =>
    (ShouldNotify nt n i t).1 ::
      runResults (ShouldNotify nt n i t).2 n i rest

/-- Run a sequence of `ShouldNotify` calls for arbitrary keys
(name, imageTag, now). -/
def runSeq (nt : NotificationThrottler) :
    List (String × String × Int) → NotificationThrottler
  | [] => nt
  | c :: rest => runSeq (ShouldNotify nt c.1 c.2.1 c.2.2).2 rest

/-- The per-key core of `ShouldNotify` when throttling is enabled: the
decision together with the state value stored back at the key.  This is a
restructuring device for proofs; `ShouldNotify_pos_eq` shows it agrees with
`ShouldNotify`. -/
def decideKey (nt : NotificationThrottler) (key : containerKey) (now : Int) :
    Bool × throttleState :=
  let s0 := (nt.state key).getD (freshState nt.bucketDuration)
  if s0.suspended then
    if nt.cooldownPeriod ≤ now - s0.suspendedAt then
      recordEvent nt { s0 with suspended := false, buckets := [] } now
    else
      (false, s0)
  else
    recordEvent nt s0 now

/-- Two throttlers agree at a key: same stored state there and same
configuration (the fields `ShouldNotify` reads). -/
def agreeAt (key : containerKey) (nt nt' : NotificationThrottler) : Prop :=
  nt.state key = nt'.state key ∧
  nt.windowDuration = nt'.windowDuration ∧
  nt.bucketDuration = nt'.bucketDuration ∧
  nt.threshold = nt'.threshold ∧
  nt.cooldownPeriod = nt'.cooldownPeriod

/-- Invariant for allow-run reasoning about one key: the stored state (if
any) is unsuspended, carries only nonnegative counts, and its total is at
most `m`. -/
def windowInv : Option throttleState → Int → Prop
  | none, m => 0 ≤ m
  | some s, m =>
    s.suspended = false ∧ bucketsTotal s.buckets ≤ m ∧
      (∀ b ∈ s.buckets, 0 ≤ b.count) ∧ 0 ≤ m

/-- Shape invariant of one entity after its last call at time `tb`: bucket
start times are pairwise distinct multiples of the fixed 5-second bucket
width, none later than the current bucket of `tb`, and each is either still
inside the window of `tb` or is the current bucket of `tb` itself. -/
def entityInv (W : Int) (s : throttleState) (tb : Int) : Prop :=
  (s.buckets.map (fun b => b.timestamp)).Nodup ∧
  ∀ b ∈ s.buckets, (5 : Int) ∣ b.timestamp ∧ b.timestamp ≤ 5 * (tb / 5) ∧
    (tb - W < b.timestamp ∨ b.timestamp = 5 * (tb / 5))

/-- Map-wide invariant: every stored entity satisfies `entityInv` for the
time of some call not later than `tcur`. -/
def mapInv (W : Int) (nt : NotificationThrottler) (tcur : Int) : Prop :=
  ∀ k s, nt.state k = some s → ∃ tb, tb ≤ tcur ∧ entityInv W s tb

/-! ### Structural lemmas about the state map -/

theorem setState_state_self (nt : NotificationThrottler) (key : containerKey)
    (s : throttleState) : (setState nt key s).state key = some s := by
  simp [setState]

theorem setState_state_ne (nt : NotificationThrottler) {key k : containerKey}
    (s : throttleState) (h : k ≠ key) :
    (setState nt key s).state k = nt.state k := by
  simp [setState, h]

theorem setState_eq_self (nt : NotificationThrottler) (key : containerKey)
    (s : throttleState) (h : nt.state key = some s) : setState nt key s = nt := by
  cases nt with
  | mk st w b th c ci =>
    simp only [setState, NotificationThrottler.mk.injEq, and_true]
    funext k
    by_cases hk : k = key
    · subst hk; simpa using h.symm
    · simp [hk]

/-! ### Unfolding lemmas for `ShouldNotify` -/

theorem ShouldNotify_disabled (nt : NotificationThrottler) (n i : String)
    (now : Int) (h : nt.threshold ≤ 0) : ShouldNotify nt n i now = (true, nt) := by
  simp [ShouldNotify, h]

theorem ShouldNotify_pos_eq (nt : NotificationThrottler) (n i : String)
    (now : Int) (h : ¬ nt.threshold ≤ 0) :
    ShouldNotify nt n i now =
      ((decideKey nt ⟨n, i⟩ now).1,
        setState nt ⟨n, i⟩ (decideKey nt ⟨n, i⟩ now).2) := by
  simp only [ShouldNotify, decideKey, if_neg h]
  by_cases hs : ((nt.state ⟨n, i⟩).getD (freshState nt.bucketDuration)).suspended
  · by_cases hc : nt.cooldownPeriod ≤
        now - ((nt.state ⟨n, i⟩).getD (freshState nt.bucketDuration)).suspendedAt
    · simp [hs, hc]
    · simp [hs, hc]
  · simp [hs]

theorem ShouldNotify_config (nt : NotificationThrottler) (n i : String)
    (now : Int) :
    (ShouldNotify nt n i now).2.windowDuration = nt.windowDuration ∧
    (ShouldNotify nt n i now).2.bucketDuration = nt.bucketDuration ∧
    (ShouldNotify nt n i now).2.threshold = nt.threshold ∧
    (ShouldNotify nt n i now).2.cooldownPeriod = nt.cooldownPeriod := by
  by_cases h : nt.threshold ≤ 0
  · simp [ShouldNotify_disabled nt n i now h]
  · simp [ShouldNotify_pos_eq nt n i now h, setState]

theorem ShouldNotify_frame (nt : NotificationThrottler) (n i : String)
    (now : Int) {k : containerKey} (hk : k ≠ ⟨n, i⟩) :
    (ShouldNotify nt n i now).2.state k = nt.state k := by
  by_cases h : nt.threshold ≤ 0
  · simp [ShouldNotify_disabled nt n i now h]
  · simp [ShouldNotify_pos_eq nt n i now h, setState, hk]

theorem decideKey_congr (nt nt' : NotificationThrottler) (key : containerKey)
    (now : Int) (h : agreeAt key nt nt') :
    decideKey nt key now = decideKey nt' key now := by
  obtain ⟨hst, hw, hb, hth, hc⟩ := h
  simp only [decideKey, recordEvent, freshState, hst, hw, hb, hth, hc]

theorem ShouldNotify_agree (nt nt' : NotificationThrottler) (n i : String)
    (now : Int) (h : agreeAt ⟨n, i⟩ nt nt') :
    (ShouldNotify nt n i now).1 = (ShouldNotify nt' n i now).1 ∧
    agreeAt ⟨n, i⟩ (ShouldNotify nt n i now).2 (ShouldNotify nt' n i now).2 := by
  have hth := h.2.2.2.1
  by_cases h0 : nt.threshold ≤ 0
  · have h0' : nt'.threshold ≤ 0 := hth ▸ h0
    simp [ShouldNotify_disabled nt n i now h0,
      ShouldNotify_disabled nt' n i now h0', h]
  · have h0' : ¬ nt'.threshold ≤ 0 := fun hle => h0 (hth ▸ hle)
    have hd := decideKey_congr nt nt' ⟨n, i⟩ now h
    refine ⟨?_, ?_⟩
    · simp [ShouldNotify_pos_eq nt n i now h0,
        ShouldNotify_pos_eq nt' n i now h0', hd]
    · simp only [ShouldNotify_pos_eq nt n i now h0,
        ShouldNotify_pos_eq nt' n i now h0', hd]
      exact ⟨by simp [setState], by simpa [setState] using h.2⟩

theorem agreeAt_refl (key : containerKey) (nt : NotificationThrottler) :
    agreeAt key nt nt :=
  ⟨rfl, rfl, rfl, rfl, rfl⟩

theorem agreeAt_trans {key : containerKey} {a b c : NotificationThrottler}
    (h1 : agreeAt key a b) (h2 : agreeAt key b c) : agreeAt key a c :=
  ⟨h1.1.trans h2.1, h1.2.1.trans h2.2.1, h1.2.2.1.trans h2.2.2.1,
    h1.2.2.2.1.trans h2.2.2.2.1, h1.2.2.2.2.trans h2.2.2.2.2⟩

theorem runResults_congr (n i : String) (ts : List Int) :
    ∀ nt nt' : NotificationThrottler, agreeAt ⟨n, i⟩ nt nt' →
      runResults nt n i ts = runResults nt' n i ts := by
  induction ts with
  | nil => intro nt nt' _; rfl
  | cons t rest ih =>
    intro nt nt' h
    have hstep := ShouldNotify_agree nt nt' n i t h
    simp only [runResults, hstep.1, ih _ _ hstep.2]

theorem runSeq_agree (key : containerKey) :
    ∀ (cs : List (String × String × Int)) (nt : NotificationThrottler),
      (∀ c ∈ cs, (⟨c.1, c.2.1⟩ : containerKey) ≠ key) →
      agreeAt key (runSeq nt cs) nt := by
  intro cs
  induction cs with
  | nil => intro nt _; exact agreeAt_refl key nt
  | cons c rest ih =>
    intro nt h
    have hkey : key ≠ (⟨c.1, c.2.1⟩ : containerKey) :=
      fun he => h c (List.mem_cons_self c rest) he.symm
    have hcfg := ShouldNotify_config nt c.1 c.2.1 c.2.2
    have hfr := ShouldNotify_frame nt c.1 c.2.1 c.2.2 hkey
    have hstep : agreeAt key (ShouldNotify nt c.1 c.2.1 c.2.2).2 nt :=
      ⟨hfr, hcfg.1, hcfg.2.1, hcfg.2.2.1, hcfg.2.2.2⟩
    exact agreeAt_trans
      (ih _ (fun c' hc' => h c' (List.mem_cons_of_mem c hc'))) hstep

/-! ### Branch lemmas for `decideKey` -/

theorem decideKey_suspended_deny (nt : NotificationThrottler)
    (key : containerKey) (now : Int) (s : throttleState)
    (hs : nt.state key = some s) (hsusp : s.suspended = true)
    (hcd : now - s.suspendedAt < nt.cooldownPeriod) :
    decideKey nt key now = (false, s) := by
  have : ¬ nt.cooldownPeriod ≤ now - s.suspendedAt := not_le.mpr hcd
  simp [decideKey, hs, hsusp, this]

theorem decideKey_recover (nt : NotificationThrottler)
    (key : containerKey) (now : Int) (s : throttleState)
    (hs : nt.state key = some s) (hsusp : s.suspended = true)
    (hcd : nt.cooldownPeriod ≤ now - s.suspendedAt) (hth : 0 < nt.threshold) :
    decideKey nt key now =
      (true,
        { buckets := [{ timestamp := goTruncate now nt.bucketDuration, count := 1 }],
          suspended := false, suspendedAt := s.suspendedAt,
          bucketDuration := s.bucketDuration }) := by
  have hlt : ¬ nt.threshold < 0 + 1 := by omega
  simp only [decideKey, hs, Option.getD_some, hsusp, if_pos hcd, recordEvent,
    bucketsTotal, incrementBucket, List.filter_nil, List.map_nil, List.sum_nil,
    if_true, if_neg hlt, ite_true]

theorem ShouldNotify_suspended_deny (nt : NotificationThrottler)
    (n i : String) (now : Int) (s : throttleState)
    (hs : nt.state ⟨n, i⟩ = some s) (hsusp : s.suspended = true)
    (hth : 0 < nt.threshold)
    (hcd : now - s.suspendedAt < nt.cooldownPeriod) :
    ShouldNotify nt n i now = (false, nt) := by
  have h0 : ¬ nt.threshold ≤ 0 := by omega
  rw [ShouldNotify_pos_eq nt n i now h0,
    decideKey_suspended_deny nt ⟨n, i⟩ now s hs hsusp hcd]
  simp [setState_eq_self nt ⟨n, i⟩ s hs]

theorem ShouldNotify_recover_eq (nt : NotificationThrottler)
    (n i : String) (now : Int) (s : throttleState)
    (hs : nt.state ⟨n, i⟩ = some s) (hsusp : s.suspended = true)
    (hth : 0 < nt.threshold)
    (hcd : nt.cooldownPeriod ≤ now - s.suspendedAt) :
    ShouldNotify nt n i now =
      (true, setState nt ⟨n, i⟩
        { buckets := [{ timestamp := goTruncate now nt.bucketDuration, count := 1 }],
          suspended := false, suspendedAt := s.suspendedAt,
          bucketDuration := s.bucketDuration }) := by
  have h0 : ¬ nt.threshold ≤ 0 := by omega
  rw [ShouldNotify_pos_eq nt n i now h0,
    decideKey_recover nt ⟨n, i⟩ now s hs hsusp hcd hth]

/-! ### Claim theorems (first batch) -/

/-- C2.  Disabled fast path: if the configured eventThreshold is ≤ 0, every
`ShouldNotify` call returns allow and leaves the throttler — in particular
its entity-state map — completely unchanged, so no state is allocated or
stored for any key. -/
theorem C2_disabled_fast_path (nt : NotificationThrottler) (n i : String)
    (now : Int) (h : nt.threshold ≤ 0) :
    ShouldNotify nt n i now = (true, nt) :=
  ShouldNotify_disabled nt n i now h

theorem C2_disabled_fast_path_witness :
    (NewNotificationThrottler ⟨60, 0, 0⟩).threshold ≤ 0 ∧
    ShouldNotify (NewNotificationThrottler ⟨60, 0, 0⟩) "web" "latest" 42 =
      (true, NewNotificationThrottler ⟨60, 0, 0⟩) :=
  ⟨by decide,
    C2_disabled_fast_path (NewNotificationThrottler ⟨60, 0, 0⟩) "web" "latest" 42
      (by decide)⟩

/-- C8.  Suspension freezes counting: a `ShouldNotify` call for a suspended
entity arriving before the cooldown has elapsed returns deny and leaves the
whole throttler (hence the entity's buckets) unchanged. -/
theorem C8_suspension_freezes_counting (nt : NotificationThrottler)
    (n i : String) (now : Int) (s : throttleState)
    (hs : nt.state ⟨n, i⟩ = some s) (hsusp : s.suspended = true)
    (hth : 0 < nt.threshold)
    (hcd : now - s.suspendedAt < nt.cooldownPeriod) :
    ShouldNotify nt n i now = (false, nt) :=
  ShouldNotify_suspended_deny nt n i now s hs hsusp hth hcd

theorem C8_suspension_freezes_counting_witness :
    ((runCalls (NewNotificationThrottler ⟨10, 1, 5⟩) "a" "x" [0, 0]).state
        ⟨"a", "x"⟩ = some ⟨[⟨0, 2⟩], true, 0, 5⟩) ∧
    (0 : Int) < (runCalls (NewNotificationThrottler ⟨10, 1, 5⟩) "a" "x" [0, 0]).threshold ∧
    (3 : Int) - 0 < (runCalls (NewNotificationThrottler ⟨10, 1, 5⟩) "a" "x" [0, 0]).cooldownPeriod ∧
    ShouldNotify (runCalls (NewNotificationThrottler ⟨10, 1, 5⟩) "a" "x" [0, 0])
        "a" "x" 3 =
      (false, runCalls (NewNotificationThrottler ⟨10, 1, 5⟩) "a" "x" [0, 0]) :=
  ⟨by decide, by decide, by decide,
    C8_suspension_freezes_counting _ "a" "x" 3 ⟨[⟨0, 2⟩], true, 0, 5⟩
      (by decide) rfl (by decide) (by decide)⟩

/-- C3.  Cooldown recovery: for an entity suspended at `s.suspendedAt`,
every call strictly inside the cooldown returns deny and changes nothing,
and a call at or after the end of the cooldown (with threshold ≥ 1) returns
allow, clears the suspended flag, and leaves the entity's window holding
exactly the one recovering event (a single bucket with count 1). -/
theorem C3_cooldown_recovery (nt : NotificationThrottler) (n i : String)
    (s : throttleState) (now1 now2 : Int)
    (hs : nt.state ⟨n, i⟩ = some s) (hsusp : s.suspended = true)
    (hth : 0 < nt.threshold) :
    (now1 - s.suspendedAt < nt.cooldownPeriod →
      ShouldNotify nt n i now1 = (false, nt)) ∧
    (nt.cooldownPeriod ≤ now2 - s.suspendedAt →
      (ShouldNotify nt n i now2).1 = true ∧
      (ShouldNotify nt n i now2).2.state ⟨n, i⟩ =
        some { buckets := [{ timestamp := goTruncate now2 nt.bucketDuration,
                             count := 1 }],
               suspended := false, suspendedAt := s.suspendedAt,
               bucketDuration := s.bucketDuration }) := by
  refine ⟨fun hcd => ShouldNotify_suspended_deny nt n i now1 s hs hsusp hth hcd,
    fun hcd => ?_⟩
  rw [ShouldNotify_recover_eq nt n i now2 s hs hsusp hth hcd]
  exact ⟨rfl, setState_state_self nt ⟨n, i⟩ _⟩

theorem C3_cooldown_recovery_witness :
    ((runCalls (NewNotificationThrottler ⟨10, 1, 5⟩) "a" "x" [0, 0]).state
        ⟨"a", "x"⟩ = some ⟨[⟨0, 2⟩], true, 0, 5⟩) ∧
    ShouldNotify (runCalls (NewNotificationThrottler ⟨10, 1, 5⟩) "a" "x" [0, 0])
        "a" "x" 3 =
      (false, runCalls (NewNotificationThrottler ⟨10, 1, 5⟩) "a" "x" [0, 0]) ∧
    (ShouldNotify (runCalls (NewNotificationThrottler ⟨10, 1, 5⟩) "a" "x" [0, 0])
        "a" "x" 7).1 = true ∧
    (ShouldNotify (runCalls (NewNotificationThrottler ⟨10, 1, 5⟩) "a" "x" [0, 0])
        "a" "x" 7).2.state ⟨"a", "x"⟩ = some ⟨[⟨5, 1⟩], false, 0, 5⟩ := by
  have h := C3_cooldown_recovery
    (runCalls (NewNotificationThrottler ⟨10, 1, 5⟩) "a" "x" [0, 0]) "a" "x"
    ⟨[⟨0, 2⟩], true, 0, 5⟩ 3 7 (by decide) rfl (by decide)
  exact ⟨by decide, h.1 (by decide), (h.2 (by decide)).1,
    ((h.2 (by decide)).2.trans (by decide))⟩

/-- C9.  Default cooldown semantics: with notificationCooldown = 0 (the
config default), re-arm is immediate — any call for a suspended entity at or
after its suspension time (threshold ≥ 1) returns allow, clears the
suspension, and restarts the window with just that event; in particular the
first call after the window clears returns allow, and post-suspension
denials can occur only before the window clears (there are none at all). -/
theorem C9_default_cooldown_immediate_rearm (nt : NotificationThrottler)
    (n i : String) (s : throttleState) (now : Int)
    (hs : nt.state ⟨n, i⟩ = some s) (hsusp : s.suspended = true)
    (hth : 0 < nt.threshold) (hcd0 : nt.cooldownPeriod = 0)
    (hnow : s.suspendedAt ≤ now) :
    (ShouldNotify nt n i now).1 = true ∧
    (ShouldNotify nt n i now).2.state ⟨n, i⟩ =
      some { buckets := [{ timestamp := goTruncate now nt.bucketDuration,
                           count := 1 }],
             suspended := false, suspendedAt := s.suspendedAt,
             bucketDuration := s.bucketDuration } := by
  have hcd : nt.cooldownPeriod ≤ now - s.suspendedAt := by omega
  rw [ShouldNotify_recover_eq nt n i now s hs hsusp hth hcd]
  exact ⟨rfl, setState_state_self nt ⟨n, i⟩ _⟩

theorem C9_default_cooldown_immediate_rearm_witness :
    ((runCalls (NewNotificationThrottler ⟨10, 1, 0⟩) "a" "x" [0, 0]).state
        ⟨"a", "x"⟩ = some ⟨[⟨0, 2⟩], true, 0, 5⟩) ∧
    (runCalls (NewNotificationThrottler ⟨10, 1, 0⟩) "a" "x" [0, 0]).cooldownPeriod = 0 ∧
    (ShouldNotify (runCalls (NewNotificationThrottler ⟨10, 1, 0⟩) "a" "x" [0, 0])
        "a" "x" 0).1 = true ∧
    (ShouldNotify (runCalls (NewNotificationThrottler ⟨10, 1, 0⟩) "a" "x" [0, 0])
        "a" "x" 0).2.state ⟨"a", "x"⟩ = some ⟨[⟨0, 1⟩], false, 0, 5⟩ := by
  have h := C9_default_cooldown_immediate_rearm
    (runCalls (NewNotificationThrottler ⟨10, 1, 0⟩) "a" "x" [0, 0]) "a" "x"
    ⟨[⟨0, 2⟩], true, 0, 5⟩ 0 (by decide) rfl (by decide) (by decide) (by decide)
  exact ⟨by decide, by decide, h.1, h.2.trans (by decide)⟩

/-- C5.  Entity independence: one `ShouldNotify` call leaves the stored
state of every other key unchanged, and the sequence of allow/deny outcomes
for a key is unaffected by any volume of calls against other keys. -/
theorem C5_entity_independence (nt : NotificationThrottler) (n i : String)
    (now : Int) (k : containerKey) (hk : k ≠ ⟨n, i⟩)
    (cs : List (String × String × Int))
    (hcs : ∀ c ∈ cs, (⟨c.1, c.2.1⟩ : containerKey) ≠ (⟨n, i⟩ : containerKey))
    (ts : List Int) :
    (ShouldNotify nt n i now).2.state k = nt.state k ∧
    runResults (runSeq nt cs) n i ts = runResults nt n i ts :=
  ⟨ShouldNotify_frame nt n i now hk,
    runResults_congr n i ts _ _ (runSeq_agree ⟨n, i⟩ cs nt hcs)⟩

theorem C5_entity_independence_witness :
    ((⟨"b", "y"⟩ : containerKey) ≠ (⟨"a", "x"⟩ : containerKey)) ∧
    (∀ c ∈ [("b", "y", (0 : Int)), ("b", "y", 0), ("b", "y", 1), ("a", "y", 1)],
      (⟨c.1, c.2.1⟩ : containerKey) ≠ (⟨"a", "x"⟩ : containerKey)) ∧
    ((ShouldNotify (NewNotificationThrottler ⟨10, 2, 5⟩) "a" "x" 0).2.state
        ⟨"b", "y"⟩ = (NewNotificationThrottler ⟨10, 2, 5⟩).state ⟨"b", "y"⟩ ∧
      runResults
        (runSeq (NewNotificationThrottler ⟨10, 2, 5⟩)
          [("b", "y", 0), ("b", "y", 0), ("b", "y", 1), ("a", "y", 1)])
        "a" "x" [0, 1, 2] =
      runResults (NewNotificationThrottler ⟨10, 2, 5⟩) "a" "x" [0, 1, 2]) :=
  ⟨by decide, by decide,
    C5_entity_independence (NewNotificationThrottler ⟨10, 2, 5⟩) "a" "x" 0
      ⟨"b", "y"⟩ (by decide)
      [("b", "y", 0), ("b", "y", 0), ("b", "y", 1), ("a", "y", 1)]
      (by decide) [0, 1, 2]⟩

/-- C10.  Cleanup is eviction-only: a sweep either deletes a key's state
entirely or leaves it untouched (and never changes the configuration), so it
can only affect future `ShouldNotify` decisions for keys it fully evicts. -/
theorem C10_cleanup_eviction_only (nt : NotificationThrottler) (now : Int) :
    (∀ k, (cleanup nt now).state k = none ∨
      (cleanup nt now).state k = nt.state k) ∧
    (∀ n i t, (cleanup nt now).state ⟨n, i⟩ = nt.state ⟨n, i⟩ →
      (ShouldNotify (cleanup nt now) n i t).1 = (ShouldNotify nt n i t).1 ∧
      (ShouldNotify (cleanup nt now) n i t).2.state ⟨n, i⟩ =
        (ShouldNotify nt n i t).2.state ⟨n, i⟩) := by
  constructor
  · intro k
    simp only [cleanup]
    cases h : nt.state k with
    | none => exact Or.inl rfl
    | some s =>
      by_cases hstale : staleEntity nt now s = true
      · exact Or.inl (by simp [hstale])
      · exact Or.inr (by simp [hstale])
  · intro n i t hst
    have hag : agreeAt ⟨n, i⟩ (cleanup nt now) nt := ⟨hst, rfl, rfl, rfl, rfl⟩
    have h := ShouldNotify_agree (cleanup nt now) nt n i t hag
    exact ⟨h.1, h.2.1⟩

theorem C10_cleanup_eviction_only_witness :
    ((cleanup (runCalls (NewNotificationThrottler ⟨10, 1, 5⟩) "a" "x" [0, 0]) 100).state
        ⟨"a", "x"⟩ = none ∨
      (cleanup (runCalls (NewNotificationThrottler ⟨10, 1, 5⟩) "a" "x" [0, 0]) 100).state
        ⟨"a", "x"⟩ =
      (runCalls (NewNotificationThrottler ⟨10, 1, 5⟩) "a" "x" [0, 0]).state
        ⟨"a", "x"⟩) :=
  (C10_cleanup_eviction_only
    (runCalls (NewNotificationThrottler ⟨10, 1, 5⟩) "a" "x" [0, 0]) 100).1
    ⟨"a", "x"⟩

theorem staleEntity_iff (nt : NotificationThrottler) (now : Int)
    (s : throttleState) :
    staleEntity nt now s = true ↔
      (∀ b ∈ s.buckets, b.timestamp ≤ now - nt.windowDuration) ∧
      (s.suspended = false ∨ nt.cooldownPeriod < now - s.suspendedAt) := by
  simp [staleEntity, List.all_eq_true, Bool.or_eq_true, Bool.not_eq_true']

theorem cleanup_state_some (nt : NotificationThrottler) (now : Int)
    (k : containerKey) (s : throttleState) (h : nt.state k = some s) :
    (cleanup nt now).state k =
      if staleEntity nt now s then none else some s := by
  simp [cleanup, h]

/-- C6.  Reclamation: cleanup evicts exactly the entities whose buckets all
lie at or before `now - windowDuration` and which are not suspended or whose
suspension is strictly older than the cooldown period; any entity idle for
longer than `windowDuration + 2 * cooldownPeriod` (with nonnegative
durations) is evicted; and a call for an evicted key behaves exactly like a
first-ever call on a throttler that has never seen any key. -/
theorem C6_reclamation (nt : NotificationThrottler) (now : Int) :
    (∀ k, (cleanup nt now).state k = none ↔
      (nt.state k = none ∨ ∃ s, nt.state k = some s ∧
        (∀ b ∈ s.buckets, b.timestamp ≤ now - nt.windowDuration) ∧
        (s.suspended = false ∨ nt.cooldownPeriod < now - s.suspendedAt))) ∧
    (∀ k s tlast, nt.state k = some s →
      (∀ b ∈ s.buckets, b.timestamp ≤ tlast) → s.suspendedAt ≤ tlast →
      0 ≤ nt.windowDuration → 0 ≤ nt.cooldownPeriod →
      nt.windowDuration + 2 * nt.cooldownPeriod < now - tlast →
      (cleanup nt now).state k = none) ∧
    (∀ n i t, (cleanup nt now).state ⟨n, i⟩ = none →
      (ShouldNotify (cleanup nt now) n i t).1 =
        (ShouldNotify { cleanup nt now with state := fun _ => none } n i t).1 ∧
      (ShouldNotify (cleanup nt now) n i t).2.state ⟨n, i⟩ =
        (ShouldNotify { cleanup nt now with state := fun _ => none } n i t).2.state
          ⟨n, i⟩) := by
  refine ⟨fun k => ?_, fun k s tlast hs hb hsa hw hc hidle => ?_, fun n i t hev => ?_⟩
  · cases h : nt.state k with
    | none => simp [cleanup, h]
    | some s =>
      rw [cleanup_state_some nt now k s h]
      cases hstale : staleEntity nt now s with
      | true =>
        simp only [if_true, h, true_iff]
        exact Or.inr ⟨s, rfl, (staleEntity_iff nt now s).mp hstale⟩
      | false =>
        simp only [Bool.false_eq_true, if_false, h]
        constructor
        · intro hcon; exact absurd hcon (by simp)
        · rintro (hcon | ⟨s', hs', hprops⟩)
          · exact absurd hcon (by simp)
          · have hss : s' = s := by simpa using hs'.symm
            rw [hss] at hprops
            have hT : staleEntity nt now s = true :=
              (staleEntity_iff nt now s).mpr hprops
            rw [hT] at hstale
            exact absurd hstale (by simp)
  · rw [cleanup_state_some nt now k s hs]
    have hstale : staleEntity nt now s = true := by
      rw [staleEntity_iff]
      refine ⟨fun b hbmem => ?_, ?_⟩
      · have := hb b hbmem; omega
      · by_cases hsusp : s.suspended = false
        · exact Or.inl hsusp
        · exact Or.inr (by omega)
    simp [hstale]
  · have hag : agreeAt ⟨n, i⟩ (cleanup nt now)
        { cleanup nt now with state := fun _ => none } :=
      ⟨by simpa using hev, rfl, rfl, rfl, rfl⟩
    have h := ShouldNotify_agree (cleanup nt now)
      { cleanup nt now with state := fun _ => none } n i t hag
    exact ⟨h.1, h.2.1⟩

theorem C6_reclamation_witness :
    ((runCalls (NewNotificationThrottler ⟨10, 1, 5⟩) "a" "x" [0, 0]).state
        ⟨"a", "x"⟩ = some ⟨[⟨0, 2⟩], true, 0, 5⟩) ∧
    (cleanup (runCalls (NewNotificationThrottler ⟨10, 1, 5⟩) "a" "x" [0, 0])
        100).state ⟨"a", "x"⟩ = none :=
  ⟨by decide,
    (C6_reclamation (runCalls (NewNotificationThrottler ⟨10, 1, 5⟩) "a" "x" [0, 0])
        100).2.1
      ⟨"a", "x"⟩ ⟨[⟨0, 2⟩], true, 0, 5⟩ 0 (by decide) (by decide) (by decide)
      (by decide) (by decide) (by decide)⟩

/-! ### Arithmetic of bucket truncation -/

theorem goTruncate_le (t d : Int) : goTruncate t d ≤ t := by
  unfold goTruncate
  split
  · exact le_refl t
  · rename_i h
    have hd : (0 : Int) < d := by omega
    have h1 := Int.emod_nonneg t hd.ne'
    have h2 := Int.ediv_add_emod t d
    omega

theorem goTruncate_five (t : Int) : goTruncate t 5 = 5 * (t / 5) := by
  unfold goTruncate
  norm_num

theorem goTruncate_five_gt (t : Int) : t - 5 < goTruncate t 5 := by
  rw [goTruncate_five]
  omega

/-! ### Unfolding of call sequences -/

theorem runResults_cons (nt : NotificationThrottler) (n i : String) (t : Int)
    (rest : List Int) :
    runResults nt n i (t :: rest) =
      (ShouldNotify nt n i t).1 ::
        runResults (ShouldNotify nt n i t).2 n i rest := rfl

theorem runCalls_cons (nt : NotificationThrottler) (n i : String) (t : Int)
    (rest : List Int) :
    runCalls nt n i (t :: rest) = runCalls (ShouldNotify nt n i t).2 n i rest :=
  rfl

theorem runCalls_nil (nt : NotificationThrottler) (n i : String) :
    runCalls nt n i [] = nt := rfl

theorem runResults_nil (nt : NotificationThrottler) (n i : String) :
    runResults nt n i [] = [] := rfl

/-! ### Single-call lemmas on simple states -/

theorem ShouldNotify_fresh (nt : NotificationThrottler) (n i : String)
    (t : Int) (hs : nt.state ⟨n, i⟩ = none) (hth : 0 < nt.threshold) :
    ShouldNotify nt n i t =
      (true, setState nt ⟨n, i⟩
        { buckets := [{ timestamp := goTruncate t nt.bucketDuration, count := 1 }],
          suspended := false, suspendedAt := 0,
          bucketDuration := nt.bucketDuration }) := by
  have h0 : ¬ nt.threshold ≤ 0 := by omega
  have hlt : ¬ nt.threshold < 0 + 1 := by omega
  rw [ShouldNotify_pos_eq nt n i t h0]
  have hd : decideKey nt ⟨n, i⟩ t =
      (true,
        { buckets := [{ timestamp := goTruncate t nt.bucketDuration, count := 1 }],
          suspended := false, suspendedAt := 0,
          bucketDuration := nt.bucketDuration }) := by
    simp only [decideKey, hs, Option.getD_none, freshState, recordEvent,
      bucketsTotal, incrementBucket, List.filter_nil, List.map_nil, List.sum_nil,
      if_neg hlt]
    simp [hlt]
  rw [hd]

theorem ShouldNotify_single_bucket_allow (nt : NotificationThrottler)
    (n i : String) (t m sa bd : Int)
    (hs : nt.state ⟨n, i⟩ =
      some { buckets := [{ timestamp := goTruncate t nt.bucketDuration,
                           count := m }],
             suspended := false, suspendedAt := sa, bucketDuration := bd })
    (hwin : t - nt.windowDuration < goTruncate t nt.bucketDuration)
    (hth : 0 < nt.threshold) (hm : m + 1 ≤ nt.threshold) :
    ShouldNotify nt n i t =
      (true, setState nt ⟨n, i⟩
        { buckets := [{ timestamp := goTruncate t nt.bucketDuration,
                        count := m + 1 }],
          suspended := false, suspendedAt := sa, bucketDuration := bd }) := by
  have h0 : ¬ nt.threshold ≤ 0 := by omega
  have hlt : ¬ nt.threshold < m + 1 := by omega
  rw [ShouldNotify_pos_eq nt n i t h0]
  have hd : decideKey nt ⟨n, i⟩ t =
      (true,
        { buckets := [{ timestamp := goTruncate t nt.bucketDuration,
                        count := m + 1 }],
          suspended := false, suspendedAt := sa, bucketDuration := bd }) := by
    simp [decideKey, hs, recordEvent, bucketsTotal, incrementBucket, hwin, hlt]
  rw [hd]

theorem ShouldNotify_single_bucket_deny (nt : NotificationThrottler)
    (n i : String) (t m sa bd : Int)
    (hs : nt.state ⟨n, i⟩ =
      some { buckets := [{ timestamp := goTruncate t nt.bucketDuration,
                           count := m }],
             suspended := false, suspendedAt := sa, bucketDuration := bd })
    (hwin : t - nt.windowDuration < goTruncate t nt.bucketDuration)
    (hth : 0 < nt.threshold) (hm : nt.threshold < m + 1) :
    ShouldNotify nt n i t =
      (false, setState nt ⟨n, i⟩
        { buckets := [{ timestamp := goTruncate t nt.bucketDuration,
                        count := m + 1 }],
          suspended := true, suspendedAt := t, bucketDuration := bd }) := by
  have h0 : ¬ nt.threshold ≤ 0 := by omega
  rw [ShouldNotify_pos_eq nt n i t h0]
  have hd : decideKey nt ⟨n, i⟩ t =
      (false,
        { buckets := [{ timestamp := goTruncate t nt.bucketDuration,
                        count := m + 1 }],
          suspended := true, suspendedAt := t, bucketDuration := bd }) := by
    simp [decideKey, hs, recordEvent, bucketsTotal, incrementBucket, hwin, hm]
  rw [hd]

/-- Repeated calls at a single timestamp `t` starting from a single-bucket
state with count `m`: the next `r` calls all hit the same bucket; the run
allows until the total passes the threshold and then denies and suspends. -/
theorem repeat_overflow (n i : String) (t : Int) :
    ∀ (r : Nat) (nt : NotificationThrottler) (m sa bd : Int),
      nt.state ⟨n, i⟩ =
        some { buckets := [{ timestamp := goTruncate t nt.bucketDuration,
                             count := m }],
               suspended := false, suspendedAt := sa, bucketDuration := bd } →
      t - nt.windowDuration < goTruncate t nt.bucketDuration →
      0 < nt.threshold → m + r = nt.threshold + 1 → 1 ≤ r →
      runResults nt n i (List.replicate r t) =
        List.replicate (r - 1) true ++ [false] ∧
      (runCalls nt n i (List.replicate r t)).state ⟨n, i⟩ =
        some { buckets := [{ timestamp := goTruncate t nt.bucketDuration,
                             count := nt.threshold + 1 }],
               suspended := true, suspendedAt := t, bucketDuration := bd } := by
  intro r
  induction r with
  | zero => intro nt m sa bd _ _ _ _ hr; exact absurd hr (by omega)
  | succ r' ih =>
    intro nt m sa bd hs hwin hth hsum _
    rcases Nat.eq_zero_or_pos r' with hr0 | hrpos
    · subst hr0
      have hm : nt.threshold < m + 1 := by omega
      have hcall := ShouldNotify_single_bucket_deny nt n i t m sa bd hs hwin hth hm
      have hmth : m + 1 = nt.threshold + 1 := by omega
      constructor
      · simp [List.replicate, runResults_cons, runResults_nil, hcall]
      · simp only [List.replicate, runCalls_cons, runCalls_nil, hcall]
        rw [setState_state_self]
        rw [hmth]
    · have hm : m + 1 ≤ nt.threshold := by omega
      have hcall := ShouldNotify_single_bucket_allow nt n i t m sa bd hs hwin hth hm
      set nt' := (ShouldNotify nt n i t).2 with hnt'
      have hcfg := ShouldNotify_config nt n i t
      have hbd : nt'.bucketDuration = nt.bucketDuration := hcfg.2.1
      have hwd : nt'.windowDuration = nt.windowDuration := hcfg.1
      have hth' : nt'.threshold = nt.threshold := hcfg.2.2.1
      have hs' : nt'.state ⟨n, i⟩ =
          some { buckets := [{ timestamp := goTruncate t nt'.bucketDuration,
                               count := m + 1 }],
                 suspended := false, suspendedAt := sa, bucketDuration := bd } := by
        rw [hnt', hcall]
        simp only [hbd]
        rw [hnt', hcall] at hbd
        simp only [setState_state_self]
        rw [hbd]
      have hih := ih nt' (m + 1) sa bd hs' (by rw [hwd, hbd]; exact hwin)
        (by omega) (by omega) hrpos
      constructor
      · rw [List.replicate_succ, runResults_cons, hcall]
        simp only [hnt'] at hih
        rw [hcall] at hih
        simp only [Nat.succ_sub_one]
        rw [hih.1]
        have : r' = (r' - 1) + 1 := by omega
        rw [this, List.replicate_succ]
        simp
      · rw [List.replicate_succ, runCalls_cons]
        have h2 := hih.2
        rw [hnt'] at h2
        rw [h2]
        rw [← hnt', hbd, hth']

/-- C1 counterexample.  The claim as stated fails: with W = 10, T = 1,
both calls at times 7 and 16 lie in the window [7, 17), so the claim
predicts the second (the (T+1)-th in-window call) is denied and suspends;
the code allows it and leaves the entity unsuspended, because the first
event's bucket start 5 = goTruncate 7 5 has already fallen out of the
window of the call at 16 (5 is not after 16 - 10). -/
theorem C1_threshold_boundary_counterexample :
    (7 : Int) ≤ 16 ∧ (16 : Int) < 7 + 10 ∧
    runResults (NewNotificationThrottler ⟨10, 1, 100⟩) "a" "x" [7, 16] =
      [true, true] ∧
    ((runCalls (NewNotificationThrottler ⟨10, 1, 100⟩) "a" "x" [7, 16]).state
        ⟨"a", "x"⟩).map (fun s => s.suspended) = some false := by
  decide

/-- C1 (amended).  Threshold boundary at a single timestamp: with
eventThreshold T ≥ 1 and any cooldown, T+1 calls for the same fresh key all
at one time t whose 5-second bucket still lies inside the window
(t - W < goTruncate t 5, automatic whenever W ≥ 5): the first T calls all
return allow, and the (T+1)-th returns deny and suspends the entity with
suspendedAt = t.  For timestamps merely lying in [t, t+W) this can fail
because bucket truncation lets events expire up to the bucket width early
(see the counterexample). -/
theorem C1_threshold_boundary (W C : Int) (T : Nat) (hT : 1 ≤ T)
    (n i : String) (t : Int) (ht : t - W < goTruncate t 5) :
    runResults (NewNotificationThrottler ⟨W, (T : Int), C⟩) n i
        (List.replicate (T + 1) t) =
      List.replicate T true ++ [false] ∧
    (runCalls (NewNotificationThrottler ⟨W, (T : Int), C⟩) n i
        (List.replicate (T + 1) t)).state ⟨n, i⟩ =
      some { buckets := [{ timestamp := goTruncate t 5, count := (T : Int) + 1 }],
             suspended := true, suspendedAt := t, bucketDuration := 5 } := by
  obtain ⟨k, rfl⟩ : ∃ k, T = k + 1 := ⟨T - 1, by omega⟩
  set nt0 := NewNotificationThrottler ⟨W, ((k + 1 : Nat) : Int), C⟩ with hnt0
  have hth0 : 0 < nt0.threshold := by
    show (0 : Int) < ((k + 1 : Nat) : Int)
    exact_mod_cast Nat.succ_pos k
  have hs0 : nt0.state ⟨n, i⟩ = none := rfl
  have hbd0 : nt0.bucketDuration = (5 : Int) := rfl
  have hcall := ShouldNotify_fresh nt0 n i t hs0 hth0
  have hhead : (ShouldNotify nt0 n i t).1 = true := by rw [hcall]
  set nt1 := (ShouldNotify nt0 n i t).2 with hnt1
  have hcfg := ShouldNotify_config nt0 n i t
  have hbd1 : nt1.bucketDuration = (5 : Int) := hcfg.2.1.trans hbd0
  have hwd1 : nt1.windowDuration = W := hcfg.1.trans rfl
  have hth1 : nt1.threshold = ((k + 1 : Nat) : Int) := hcfg.2.2.1.trans rfl
  have hs1 : nt1.state ⟨n, i⟩ =
      some { buckets := [{ timestamp := goTruncate t (5 : Int), count := 1 }],
             suspended := false, suspendedAt := 0, bucketDuration := (5 : Int) } := by
    rw [hnt1, hcall]
    show (setState nt0 ⟨n, i⟩ _).state ⟨n, i⟩ = _
    rw [setState_state_self]
    rfl
  have hrep := repeat_overflow n i t (k + 1) nt1 1 0 5 (by rw [hbd1]; exact hs1)
    (by rw [hwd1, hbd1]; exact ht) (by rw [hth1]; exact_mod_cast Nat.succ_pos k)
    (by rw [hth1]; push_cast; ring) (by omega)
  constructor
  · rw [List.replicate_succ, runResults_cons, hhead, ← hnt1, hrep.1]
    simp [List.replicate_succ]
  · rw [List.replicate_succ, runCalls_cons, ← hnt1, hrep.2, hth1, hbd1]

theorem C1_threshold_boundary_witness :
    1 ≤ 2 ∧ (3 : Int) - 10 < goTruncate 3 5 ∧
    (runResults (NewNotificationThrottler ⟨10, ((2 : Nat) : Int), 7⟩) "a" "x"
        (List.replicate (2 + 1) 3) =
      List.replicate 2 true ++ [false] ∧
    (runCalls (NewNotificationThrottler ⟨10, ((2 : Nat) : Int), 7⟩) "a" "x"
        (List.replicate (2 + 1) 3)).state ⟨"a", "x"⟩ =
      some { buckets := [{ timestamp := goTruncate 3 5, count := (2 : Int) + 1 }],
             suspended := true, suspendedAt := 3, bucketDuration := 5 }) :=
  ⟨by decide, by decide,
    C1_threshold_boundary 10 7 2 (by decide) "a" "x" 3 (by decide)⟩

/-! ### Counting lemmas for buckets -/

theorem bucketsTotal_cons (b : eventBucket) (l : List eventBucket) :
    bucketsTotal (b :: l) = b.count + bucketsTotal l := by
  simp [bucketsTotal]

theorem bucketsTotal_nonneg (bs : List eventBucket)
    (h : ∀ b ∈ bs, 0 ≤ b.count) : 0 ≤ bucketsTotal bs := by
  induction bs with
  | nil => simp [bucketsTotal]
  | cons b rest ih =>
    rw [bucketsTotal_cons]
    have h1 := h b (List.mem_cons_self b rest)
    have h2 := ih (fun x hx => h x (List.mem_cons_of_mem b hx))
    omega

theorem bucketsTotal_filter_le (bs : List eventBucket)
    (p : eventBucket → Bool) (h : ∀ b ∈ bs, 0 ≤ b.count) :
    bucketsTotal (bs.filter p) ≤ bucketsTotal bs := by
  induction bs with
  | nil => simp [bucketsTotal]
  | cons b rest ih =>
    have h1 := h b (List.mem_cons_self b rest)
    have h2 := ih (fun x hx => h x (List.mem_cons_of_mem b hx))
    by_cases hp : p b
    · rw [List.filter_cons_of_pos hp, bucketsTotal_cons, bucketsTotal_cons]
      omega
    · rw [List.filter_cons_of_neg hp, bucketsTotal_cons]
      omega

theorem bucketsTotal_incrementBucket (bs : List eventBucket) (t : Int) :
    bucketsTotal (incrementBucket bs t) = bucketsTotal bs + 1 := by
  induction bs with
  | nil => simp [incrementBucket, bucketsTotal]
  | cons b rest ih =>
    by_cases hb : b.timestamp = t
    · rw [incrementBucket, if_pos hb, bucketsTotal_cons, bucketsTotal_cons]
      show b.count + 1 + bucketsTotal rest = b.count + bucketsTotal rest + 1
      omega
    · rw [incrementBucket, if_neg hb, bucketsTotal_cons, bucketsTotal_cons, ih]
      omega

theorem incrementBucket_count_nonneg (bs : List eventBucket) (t : Int)
    (h : ∀ b ∈ bs, 0 ≤ b.count) : ∀ b ∈ incrementBucket bs t, 0 ≤ b.count := by
  induction bs with
  | nil =>
    intro b hb
    simp only [incrementBucket, List.mem_singleton] at hb
    subst hb; norm_num
  | cons b0 rest ih =>
    intro b hb
    have h0 := h b0 (List.mem_cons_self b0 rest)
    have hrest : ∀ x ∈ rest, 0 ≤ x.count :=
      fun x hx => h x (List.mem_cons_of_mem b0 hx)
    by_cases hb0 : b0.timestamp = t
    · rw [incrementBucket, if_pos hb0] at hb
      rcases List.mem_cons.mp hb with hb | hb
      · subst hb
        show (0 : Int) ≤ b0.count + 1
        omega
      · exact hrest b hb
    · rw [incrementBucket, if_neg hb0] at hb
      rcases List.mem_cons.mp hb with hb | hb
      · subst hb; exact h0
      · exact ih hrest b hb

theorem incrementBucket_timestamp_le (bs : List eventBucket) (t g : Int)
    (hb : ∀ b ∈ bs, b.timestamp ≤ g) (ht : t ≤ g) :
    ∀ b ∈ incrementBucket bs t, b.timestamp ≤ g := by
  induction bs with
  | nil =>
    intro b hmem
    simp only [incrementBucket, List.mem_singleton] at hmem
    subst hmem; exact ht
  | cons b0 rest ih =>
    intro b hmem
    have h0 := hb b0 (List.mem_cons_self b0 rest)
    have hrest : ∀ x ∈ rest, x.timestamp ≤ g :=
      fun x hx => hb x (List.mem_cons_of_mem b0 hx)
    by_cases hb0 : b0.timestamp = t
    · rw [incrementBucket, if_pos hb0] at hmem
      rcases List.mem_cons.mp hmem with hmem | hmem
      · subst hmem; exact h0
      · exact hrest b hmem
    · rw [incrementBucket, if_neg hb0] at hmem
      rcases List.mem_cons.mp hmem with hmem | hmem
      · subst hmem; exact h0
      · exact ih hrest b hmem

/-! ### Unfolding lemmas for `recordEvent` -/

theorem recordEvent_allow_eq (nt : NotificationThrottler) (s : throttleState)
    (now : Int)
    (hok : bucketsTotal (s.buckets.filter
        (fun b => decide (now - nt.windowDuration < b.timestamp))) + 1 ≤
      nt.threshold) :
    recordEvent nt s now =
      (true, { s with buckets := (incrementBucket
        (s.buckets.filter (fun b => decide (now - nt.windowDuration < b.timestamp)))
        (goTruncate now nt.bucketDuration)) }) := by
  have h : ¬ nt.threshold < bucketsTotal (s.buckets.filter
      (fun b => decide (now - nt.windowDuration < b.timestamp))) + 1 := by omega
  simp [recordEvent, h]

theorem recordEvent_deny_eq (nt : NotificationThrottler) (s : throttleState)
    (now : Int)
    (hover : nt.threshold < bucketsTotal (s.buckets.filter
        (fun b => decide (now - nt.windowDuration < b.timestamp))) + 1) :
    recordEvent nt s now =
      (false, { s with
        suspended := true, suspendedAt := now,
        buckets := (incrementBucket
          (s.buckets.filter (fun b => decide (now - nt.windowDuration < b.timestamp)))
          (goTruncate now nt.bucketDuration)) }) := by
  simp [recordEvent, hover]

theorem decideKey_active (nt : NotificationThrottler) (key : containerKey)
    (now : Int) (s : throttleState) (hs : nt.state key = some s)
    (hsusp : s.suspended = false) :
    decideKey nt key now = recordEvent nt s now := by
  simp [decideKey, hs, hsusp]

/-! ### One allowed step preserving the window invariant -/

theorem ShouldNotify_windowInv_step (nt : NotificationThrottler)
    (n i : String) (now m : Int) (hinv : windowInv (nt.state ⟨n, i⟩) m)
    (hm : m + 1 ≤ nt.threshold) :
    (ShouldNotify nt n i now).1 = true ∧
    windowInv ((ShouldNotify nt n i now).2.state ⟨n, i⟩) (m + 1) := by
  cases hst : nt.state ⟨n, i⟩ with
  | none =>
    rw [hst] at hinv
    have hm0 : (0 : Int) ≤ m := hinv
    have hth : 0 < nt.threshold := by omega
    have hcall := ShouldNotify_fresh nt n i now hst hth
    rw [hcall]
    refine ⟨rfl, ?_⟩
    show windowInv ((setState nt ⟨n, i⟩ _).state ⟨n, i⟩) (m + 1)
    rw [setState_state_self]
    refine ⟨rfl, ?_, ?_, by omega⟩
    · rw [bucketsTotal_cons]; simp [bucketsTotal]; omega
    · intro b hbmem
      simp only [List.mem_singleton] at hbmem
      subst hbmem; norm_num
  | some s =>
    rw [hst] at hinv
    obtain ⟨hsusp, htot, hcnt, hm0⟩ := hinv
    have hth : 0 < nt.threshold := by omega
    have h0 : ¬ nt.threshold ≤ 0 := by omega
    have hok : bucketsTotal (s.buckets.filter
        (fun b => decide (now - nt.windowDuration < b.timestamp))) + 1 ≤
        nt.threshold := by
      have := bucketsTotal_filter_le s.buckets
        (fun b => decide (now - nt.windowDuration < b.timestamp)) hcnt
      omega
    have hd : decideKey nt ⟨n, i⟩ now =
        (true, { s with buckets := (incrementBucket
          (s.buckets.filter (fun b => decide (now - nt.windowDuration < b.timestamp)))
          (goTruncate now nt.bucketDuration)) }) :=
      (decideKey_active nt ⟨n, i⟩ now s hst hsusp).trans
        (recordEvent_allow_eq nt s now hok)
    rw [ShouldNotify_pos_eq nt n i now h0, hd]
    refine ⟨rfl, ?_⟩
    show windowInv ((setState nt ⟨n, i⟩ _).state ⟨n, i⟩) (m + 1)
    rw [setState_state_self]
    have hcnt' : ∀ b ∈ s.buckets.filter
        (fun b => decide (now - nt.windowDuration < b.timestamp)), 0 ≤ b.count :=
      fun b hbm => hcnt b (List.mem_filter.mp hbm).1
    refine ⟨hsusp, ?_, ?_, by omega⟩
    · rw [bucketsTotal_incrementBucket]
      have := bucketsTotal_filter_le s.buckets
        (fun b => decide (now - nt.windowDuration < b.timestamp)) hcnt
      omega
    · exact incrementBucket_count_nonneg _ _ hcnt'

/-! ### Bucket-timestamp bounds through calls -/

theorem recordEvent_buckets (nt : NotificationThrottler) (s : throttleState)
    (now : Int) :
    (recordEvent nt s now).2.buckets =
      incrementBucket
        (s.buckets.filter (fun b => decide (now - nt.windowDuration < b.timestamp)))
        (goTruncate now nt.bucketDuration) := by
  by_cases h : nt.threshold < bucketsTotal (s.buckets.filter
      (fun b => decide (now - nt.windowDuration < b.timestamp))) + 1
  · rw [recordEvent_deny_eq nt s now h]
  · rw [recordEvent_allow_eq nt s now (by omega)]

theorem decideKey_buckets_bound (nt : NotificationThrottler)
    (key : containerKey) (now g : Int)
    (hb : ∀ s, nt.state key = some s → ∀ b ∈ s.buckets, b.timestamp ≤ g)
    (hnow : now ≤ g) :
    ∀ b ∈ (decideKey nt key now).2.buckets, b.timestamp ≤ g := by
  have htr : goTruncate now nt.bucketDuration ≤ g :=
    le_trans (goTruncate_le now nt.bucketDuration) hnow
  cases hst : nt.state key with
  | none =>
    have hfr : (decideKey nt key now).2.buckets =
        (recordEvent nt (freshState nt.bucketDuration) now).2.buckets := by
      simp [decideKey, hst, freshState]
    rw [hfr, recordEvent_buckets]
    intro b hbmem
    refine incrementBucket_timestamp_le _ _ g ?_ htr b hbmem
    intro x hx
    simp [freshState] at hx
  | some s =>
    have hbs := hb s hst
    cases hsusp : s.suspended with
    | false =>
      rw [decideKey_active nt key now s hst hsusp, recordEvent_buckets]
      intro b hbmem
      refine incrementBucket_timestamp_le _ _ g ?_ htr b hbmem
      intro x hx
      exact hbs x (List.mem_filter.mp hx).1
    | true =>
      by_cases hcd : nt.cooldownPeriod ≤ now - s.suspendedAt
      · have hrec : (decideKey nt key now).2.buckets =
            (recordEvent nt { s with suspended := false, buckets := [] } now).2.buckets := by
          simp [decideKey, hst, hsusp, hcd]
        rw [hrec, recordEvent_buckets]
        intro b hbmem
        refine incrementBucket_timestamp_le _ _ g ?_ htr b hbmem
        intro x hx
        simp at hx
      · have hden : decideKey nt key now = (false, s) :=
          decideKey_suspended_deny nt key now s hst hsusp (by omega)
        rw [hden]
        exact hbs

theorem ShouldNotify_buckets_bound (nt : NotificationThrottler)
    (n i : String) (now g : Int)
    (hb : ∀ s, nt.state ⟨n, i⟩ = some s → ∀ b ∈ s.buckets, b.timestamp ≤ g)
    (hnow : now ≤ g) :
    ∀ s', (ShouldNotify nt n i now).2.state ⟨n, i⟩ = some s' →
      ∀ b ∈ s'.buckets, b.timestamp ≤ g := by
  intro s' hs'
  by_cases h0 : nt.threshold ≤ 0
  · rw [ShouldNotify_disabled nt n i now h0] at hs'
    exact hb s' hs'
  · rw [ShouldNotify_pos_eq nt n i now h0, setState_state_self] at hs'
    have hss : s' = (decideKey nt ⟨n, i⟩ now).2 := by
      simpa using hs'.symm
    rw [hss]
    exact decideKey_buckets_bound nt ⟨n, i⟩ now g hb hnow

theorem runCalls_buckets_bound (n i : String) (g : Int) :
    ∀ (ts : List Int) (nt : NotificationThrottler),
      (∀ s, nt.state ⟨n, i⟩ = some s → ∀ b ∈ s.buckets, b.timestamp ≤ g) →
      (∀ x ∈ ts, x ≤ g) →
      ∀ s', (runCalls nt n i ts).state ⟨n, i⟩ = some s' →
        ∀ b ∈ s'.buckets, b.timestamp ≤ g := by
  intro ts
  induction ts with
  | nil => intro nt hb _ s' hs'; exact hb s' hs'
  | cons t rest ih =>
    intro nt hb hts s' hs'
    rw [runCalls_cons] at hs'
    exact ih (ShouldNotify nt n i t).2
      (ShouldNotify_buckets_bound nt n i t g hb (hts t (List.mem_cons_self t rest)))
      (fun x hx => hts x (List.mem_cons_of_mem t hx)) s' hs'

/-! ### The call after a silent gap starts a fresh window -/

theorem ShouldNotify_gap (nt : NotificationThrottler) (n i : String)
    (now g : Int)
    (hsusp : ∀ s, nt.state ⟨n, i⟩ = some s → s.suspended = false)
    (hb : ∀ s, nt.state ⟨n, i⟩ = some s → ∀ b ∈ s.buckets, b.timestamp ≤ g)
    (hgap : g + nt.windowDuration < now) (hth : 0 < nt.threshold) :
    (ShouldNotify nt n i now).1 = true ∧
    windowInv ((ShouldNotify nt n i now).2.state ⟨n, i⟩) 1 := by
  cases hst : nt.state ⟨n, i⟩ with
  | none =>
    have hcall := ShouldNotify_fresh nt n i now hst hth
    rw [hcall]
    refine ⟨rfl, ?_⟩
    show windowInv ((setState nt ⟨n, i⟩ _).state ⟨n, i⟩) 1
    rw [setState_state_self]
    refine ⟨rfl, by simp [bucketsTotal], ?_, by norm_num⟩
    intro b hbmem
    simp only [List.mem_singleton] at hbmem
    subst hbmem; norm_num
  | some s =>
    have hsp := hsusp s hst
    have hfil : s.buckets.filter
        (fun b => decide (now - nt.windowDuration < b.timestamp)) = [] := by
      rw [List.filter_eq_nil_iff]
      intro b hbmem
      have := hb s hst b hbmem
      simp only [decide_eq_true_eq]
      omega
    have h0 : ¬ nt.threshold ≤ 0 := by omega
    have hok : bucketsTotal (s.buckets.filter
        (fun b => decide (now - nt.windowDuration < b.timestamp))) + 1 ≤
        nt.threshold := by
      rw [hfil]; simp [bucketsTotal]; omega
    have hd : decideKey nt ⟨n, i⟩ now =
        (true, { s with buckets := (incrementBucket
          (s.buckets.filter (fun b => decide (now - nt.windowDuration < b.timestamp)))
          (goTruncate now nt.bucketDuration)) }) :=
      (decideKey_active nt ⟨n, i⟩ now s hst hsp).trans
        (recordEvent_allow_eq nt s now hok)
    rw [ShouldNotify_pos_eq nt n i now h0, hd]
    refine ⟨rfl, ?_⟩
    show windowInv ((setState nt ⟨n, i⟩ _).state ⟨n, i⟩) 1
    rw [setState_state_self]
    refine ⟨hsp, ?_, ?_, by norm_num⟩
    · rw [hfil]
      show bucketsTotal (incrementBucket [] (goTruncate now nt.bucketDuration)) ≤ 1
      rw [bucketsTotal_incrementBucket]
      simp [bucketsTotal]
    · rw [hfil]
      intro b hbmem
      simp only [incrementBucket, List.mem_singleton] at hbmem
      subst hbmem; norm_num

/-! ### A run of calls that stays at or under the threshold -/

theorem runResults_allow (n i : String) :
    ∀ (ts : List Int) (nt : NotificationThrottler) (m : Int),
      windowInv (nt.state ⟨n, i⟩) m → m + ts.length ≤ nt.threshold →
      runResults nt n i ts = List.replicate ts.length true ∧
      windowInv ((runCalls nt n i ts).state ⟨n, i⟩) (m + ts.length) ∧
      (runCalls nt n i ts).threshold = nt.threshold ∧
      (runCalls nt n i ts).windowDuration = nt.windowDuration ∧
      (runCalls nt n i ts).bucketDuration = nt.bucketDuration ∧
      (runCalls nt n i ts).cooldownPeriod = nt.cooldownPeriod := by
  intro ts
  induction ts with
  | nil =>
    intro nt m hinv _
    simp only [runResults_nil, runCalls_nil, List.length_nil, List.replicate]
    exact ⟨by trivial, by simpa using hinv, by trivial, by trivial, by trivial,
      by trivial⟩
  | cons t rest ih =>
    intro nt m hinv hlen
    have hm1 : m + 1 ≤ nt.threshold := by
      have : (0 : Int) ≤ rest.length := by positivity
      simp only [List.length_cons] at hlen
      push_cast at hlen
      omega
    have hstep := ShouldNotify_windowInv_step nt n i t m hinv hm1
    have hcfg := ShouldNotify_config nt n i t
    have hih := ih (ShouldNotify nt n i t).2 (m + 1) hstep.2
      (by rw [hcfg.2.2.1]; simp only [List.length_cons] at hlen; push_cast at hlen ⊢; omega)
    refine ⟨?_, ?_, ?_, ?_, ?_, ?_⟩
    · rw [runResults_cons, hstep.1, hih.1]
      simp [List.replicate_succ]
    · rw [runCalls_cons]
      have := hih.2.1
      have harith : m + 1 + (rest.length : Int) = m + ((t :: rest).length : Int) := by
        simp only [List.length_cons]; push_cast; ring
      rw [harith] at this
      exact this
    · rw [runCalls_cons, hih.2.2.1, hcfg.2.2.1]
    · rw [runCalls_cons, hih.2.2.2.1, hcfg.1]
    · rw [runCalls_cons, hih.2.2.2.2.1, hcfg.2.1]
    · rw [runCalls_cons, hih.2.2.2.2.2, hcfg.2.2.2]

theorem runResults_append (n i : String) :
    ∀ (ts1 ts2 : List Int) (nt : NotificationThrottler),
      runResults nt n i (ts1 ++ ts2) =
        runResults nt n i ts1 ++ runResults (runCalls nt n i ts1) n i ts2 := by
  intro ts1
  induction ts1 with
  | nil => intro ts2 nt; simp [runResults_nil, runCalls_nil]
  | cons t rest ih =>
    intro ts2 nt
    simp only [List.cons_append, runResults_cons, runCalls_cons, ih]

theorem runCalls_append (n i : String) :
    ∀ (ts1 ts2 : List Int) (nt : NotificationThrottler),
      runCalls nt n i (ts1 ++ ts2) = runCalls (runCalls nt n i ts1) n i ts2 := by
  intro ts1
  induction ts1 with
  | nil => intro ts2 nt; rw [runCalls_nil]; rfl
  | cons t rest ih =>
    intro ts2 nt
    simp only [List.cons_append, runCalls_cons, ih]

theorem ShouldNotify_state_some (nt : NotificationThrottler) (n i : String)
    (now : Int) (h0 : ¬ nt.threshold ≤ 0) :
    (ShouldNotify nt n i now).2.state ⟨n, i⟩ =
      some (decideKey nt ⟨n, i⟩ now).2 := by
  rw [ShouldNotify_pos_eq nt n i now h0]
  exact setState_state_self nt ⟨n, i⟩ _

theorem runCalls_state_isSome (n i : String) :
    ∀ (ts : List Int) (nt : NotificationThrottler), 0 < nt.threshold →
      ((nt.state ⟨n, i⟩).isSome ∨ ts ≠ []) →
      ((runCalls nt n i ts).state ⟨n, i⟩).isSome := by
  intro ts
  induction ts with
  | nil =>
    intro nt _ h
    rcases h with h | h
    · simpa [runCalls_nil] using h
    · exact absurd rfl h
  | cons t rest ih =>
    intro nt hth _
    rw [runCalls_cons]
    have hcfg := ShouldNotify_config nt n i t
    refine ih (ShouldNotify nt n i t).2 (by rw [hcfg.2.2.1]; exact hth) (Or.inl ?_)
    rw [ShouldNotify_state_some nt n i t (by omega)]
    rfl

/-- C4.  Window sliding: events more than `windowDuration` older than a
call's now never contribute to its threshold comparison — concretely, T-1
events at times up to g, then a silent gap longer than W (first later call
at s1 > g + W), then T further events: every call returns allow and the
entity is never suspended. -/
theorem C4_window_sliding (W C : Int) (T : Nat) (hT : 1 ≤ T) (n i : String)
    (ts1 : List Int) (hlen1 : ts1.length = T - 1) (g : Int)
    (hts1 : ∀ x ∈ ts1, x ≤ g) (s1 : Int) (hgap : g + W < s1)
    (ts2 : List Int) (hlen2 : ts2.length = T - 1) :
    runResults (NewNotificationThrottler ⟨W, (T : Int), C⟩) n i
        (ts1 ++ s1 :: ts2) = List.replicate (2 * T - 1) true ∧
    ∃ s, (runCalls (NewNotificationThrottler ⟨W, (T : Int), C⟩) n i
        (ts1 ++ s1 :: ts2)).state ⟨n, i⟩ = some s ∧ s.suspended = false := by
  set nt0 := NewNotificationThrottler ⟨W, (T : Int), C⟩ with hnt0
  have hth0 : 0 < nt0.threshold := by
    show (0 : Int) < (T : Int); exact_mod_cast hT
  have hs0 : nt0.state ⟨n, i⟩ = none := rfl
  have hinv0 : windowInv (nt0.state ⟨n, i⟩) 0 := le_refl (0 : Int)
  have hl1 : (0 : Int) + ts1.length ≤ nt0.threshold := by
    show (0 : Int) + (ts1.length : Int) ≤ (T : Int)
    rw [hlen1]; omega
  have h1 := runResults_allow n i ts1 nt0 0 hinv0 hl1
  set nt2 := runCalls nt0 n i ts1 with hnt2
  have hth2 : nt2.threshold = (T : Int) := h1.2.2.1.trans rfl
  have hwd2 : nt2.windowDuration = W := h1.2.2.2.1.trans rfl
  have hsusp2 : ∀ s, nt2.state ⟨n, i⟩ = some s → s.suspended = false := by
    intro s hs
    have hw := h1.2.1
    rw [hs] at hw
    exact hw.1
  have hb2 : ∀ s, nt2.state ⟨n, i⟩ = some s → ∀ b ∈ s.buckets, b.timestamp ≤ g := by
    refine runCalls_buckets_bound n i g ts1 nt0 ?_ hts1
    intro s hs
    rw [hs0] at hs
    cases hs
  have hgapcall := ShouldNotify_gap nt2 n i s1 g hsusp2 hb2
    (by rw [hwd2]; exact hgap) (by rw [hth2]; exact_mod_cast hT)
  set nt3 := (ShouldNotify nt2 n i s1).2 with hnt3
  have hcfg3 := ShouldNotify_config nt2 n i s1
  have hth3 : nt3.threshold = (T : Int) := hcfg3.2.2.1.trans hth2
  have hl2 : (1 : Int) + ts2.length ≤ nt3.threshold := by
    rw [hth3, hlen2]; omega
  have h2 := runResults_allow n i ts2 nt3 1 hgapcall.2 hl2
  have hfinal_eq : runCalls nt0 n i (ts1 ++ s1 :: ts2) = runCalls nt3 n i ts2 := by
    rw [runCalls_append, ← hnt2, runCalls_cons, ← hnt3]
  constructor
  · rw [runResults_append, ← hnt2, runResults_cons, hgapcall.1, ← hnt3, h1.1,
      h2.1, hlen1, hlen2]
    have harith : 2 * T - 1 = (T - 1) + ((T - 1) + 1) := by omega
    rw [harith, List.replicate_add, List.replicate_succ]
  · rw [hfinal_eq]
    have hsome : ((runCalls nt3 n i ts2).state ⟨n, i⟩).isSome := by
      refine runCalls_state_isSome n i ts2 nt3 (by rw [hth3]; exact_mod_cast hT)
        (Or.inl ?_)
      rw [hnt3, ShouldNotify_state_some nt2 n i s1 (by rw [hth2]; omega)]
      rfl
    obtain ⟨s, hs⟩ := Option.isSome_iff_exists.mp hsome
    refine ⟨s, hs, ?_⟩
    have hw := h2.2.1
    rw [hs] at hw
    exact hw.1

theorem C4_window_sliding_witness :
    1 ≤ 2 ∧ ([3] : List Int).length = 2 - 1 ∧ ([15] : List Int).length = 2 - 1 ∧
    (∀ x ∈ ([3] : List Int), x ≤ (3 : Int)) ∧ (3 : Int) + 10 < 14 ∧
    (runResults (NewNotificationThrottler ⟨10, ((2 : Nat) : Int), 9⟩) "a" "x"
        ([3] ++ 14 :: [15]) = List.replicate (2 * 2 - 1) true ∧
    ∃ s, (runCalls (NewNotificationThrottler ⟨10, ((2 : Nat) : Int), 9⟩) "a" "x"
        ([3] ++ 14 :: [15])).state ⟨"a", "x"⟩ = some s ∧ s.suspended = false) :=
  ⟨by decide, by decide, by decide, by decide, by decide,
    C4_window_sliding 10 9 2 (by decide) "a" "x" [3] (by decide) 3 (by decide)
      14 (by decide) [15] (by decide)⟩

/-! ### Timestamp structure of `incrementBucket` -/

theorem incrementBucket_timestamps_of_mem (bs : List eventBucket) (t : Int)
    (h : t ∈ bs.map (fun b => b.timestamp)) :
    (incrementBucket bs t).map (fun b => b.timestamp) =
      bs.map (fun b => b.timestamp) := by
  induction bs with
  | nil => simp at h
  | cons b rest ih =>
    by_cases hb : b.timestamp = t
    · rw [incrementBucket, if_pos hb]
      rfl
    · rw [incrementBucket, if_neg hb]
      simp only [List.map_cons] at h ⊢
      rcases List.mem_cons.mp h with h1 | h1
      · exact absurd h1.symm hb
      · rw [ih h1]

theorem incrementBucket_timestamps_of_not_mem (bs : List eventBucket) (t : Int)
    (h : t ∉ bs.map (fun b => b.timestamp)) :
    (incrementBucket bs t).map (fun b => b.timestamp) =
      bs.map (fun b => b.timestamp) ++ [t] := by
  induction bs with
  | nil => rfl
  | cons b rest ih =>
    have hb : b.timestamp ≠ t := by
      intro he
      exact h (by simp [he])
    rw [incrementBucket, if_neg hb]
    simp only [List.map_cons, List.cons_append]
    congr 1
    refine ih ?_
    intro hm
    exact h (by simp [hm])

theorem incrementBucket_nodup (bs : List eventBucket) (t : Int)
    (h : (bs.map (fun b => b.timestamp)).Nodup) :
    ((incrementBucket bs t).map (fun b => b.timestamp)).Nodup := by
  by_cases hm : t ∈ bs.map (fun b => b.timestamp)
  · rw [incrementBucket_timestamps_of_mem bs t hm]
    exact h
  · rw [incrementBucket_timestamps_of_not_mem bs t hm]
    simp [List.nodup_append, h, hm]

theorem incrementBucket_timestamp_cases (bs : List eventBucket) (t : Int) :
    ∀ b ∈ incrementBucket bs t, b.timestamp = t ∨
      b.timestamp ∈ bs.map (fun x => x.timestamp) := by
  induction bs with
  | nil =>
    intro b hb
    simp only [incrementBucket, List.mem_singleton] at hb
    subst hb
    exact Or.inl rfl
  | cons b0 rest ih =>
    intro b hb
    by_cases hb0 : b0.timestamp = t
    · rw [incrementBucket, if_pos hb0] at hb
      rcases List.mem_cons.mp hb with hb | hb
      · subst hb; exact Or.inl hb0
      · exact Or.inr (by
          simp only [List.map_cons, List.mem_cons]
          exact Or.inr (List.mem_map_of_mem _ hb))
    · rw [incrementBucket, if_neg hb0] at hb
      rcases List.mem_cons.mp hb with hb | hb
      · subst hb
        exact Or.inr (by simp)
      · rcases ih b hb with h | h
        · exact Or.inl h
        · exact Or.inr (by
            simp only [List.map_cons, List.mem_cons]
            exact Or.inr h)

/-! ### The per-record entity invariant -/

theorem entityInv_recordEvent (W now tb : Int) (nt : NotificationThrottler)
    (s : throttleState) (hbd : nt.bucketDuration = 5)
    (hwd : nt.windowDuration = W) (hinvs : entityInv W s tb) (htb : tb ≤ now) :
    entityInv W (recordEvent nt s now).2 now := by
  obtain ⟨hnd, hprops⟩ := hinvs
  have hbk := recordEvent_buckets nt s now
  constructor
  · rw [hbk]
    exact incrementBucket_nodup _ _
      (hnd.sublist (List.Sublist.map _ (List.filter_sublist _)))
  · intro b hbmem
    rw [hbk] at hbmem
    have htr : goTruncate now nt.bucketDuration = 5 * (now / 5) := by
      rw [hbd, goTruncate_five]
    rcases incrementBucket_timestamp_cases _ _ b hbmem with h | h
    · rw [h, htr]
      exact ⟨⟨now / 5, rfl⟩, le_refl _, Or.inr rfl⟩
    · obtain ⟨x, hxmem, hxts⟩ := List.mem_map.mp h
      have hxorig := List.mem_filter.mp hxmem
      have hxp := hprops x hxorig.1
      have hwin : now - nt.windowDuration < x.timestamp := by
        have := hxorig.2
        simpa using this
      refine ⟨hxts ▸ hxp.1, ?_, Or.inl ?_⟩
      · rw [← hxts]
        have hmono : tb / 5 ≤ now / 5 := by omega
        have := hxp.2.1
        omega
      · rw [← hxts, ← hwd]
        exact hwin

theorem decideKey_none (nt : NotificationThrottler) (key : containerKey)
    (now : Int) (hs : nt.state key = none) :
    decideKey nt key now = recordEvent nt (freshState nt.bucketDuration) now := by
  simp [decideKey, hs, freshState]

theorem decideKey_recover_raw (nt : NotificationThrottler) (key : containerKey)
    (now : Int) (s : throttleState) (hs : nt.state key = some s)
    (hsusp : s.suspended = true) (hcd : nt.cooldownPeriod ≤ now - s.suspendedAt) :
    decideKey nt key now =
      recordEvent nt { s with suspended := false, buckets := [] } now := by
  simp [decideKey, hs, hsusp, hcd]

theorem entityInv_empty (W tb : Int) (s : throttleState) (h : s.buckets = []) :
    entityInv W s tb := by
  constructor
  · rw [h]; simp
  · intro b hb
    rw [h] at hb
    cases hb

theorem ShouldNotify_mapInv (W : Int) (nt : NotificationThrottler)
    (n i : String) (now tc : Int) (hbd : nt.bucketDuration = 5)
    (hwd : nt.windowDuration = W) (hinv : mapInv W nt tc) (htc : tc ≤ now) :
    mapInv W (ShouldNotify nt n i now).2 now := by
  by_cases h0 : nt.threshold ≤ 0
  · rw [ShouldNotify_disabled nt n i now h0]
    intro k s hs
    obtain ⟨tb, htb, he⟩ := hinv k s hs
    exact ⟨tb, by omega, he⟩
  · intro k s hs
    by_cases hk : k = (⟨n, i⟩ : containerKey)
    · subst hk
      rw [ShouldNotify_state_some nt n i now h0] at hs
      have hss : s = (decideKey nt ⟨n, i⟩ now).2 := by simpa using hs.symm
      rw [hss]
      cases hst : nt.state (⟨n, i⟩ : containerKey) with
      | none =>
        rw [decideKey_none nt ⟨n, i⟩ now hst]
        exact ⟨now, le_refl now,
          entityInv_recordEvent W now now nt _ hbd hwd
            (entityInv_empty W now _ rfl) (le_refl now)⟩
      | some s0 =>
        obtain ⟨tb0, htb0, he0⟩ := hinv ⟨n, i⟩ s0 hst
        cases hsusp : s0.suspended with
        | false =>
          rw [decideKey_active nt ⟨n, i⟩ now s0 hst hsusp]
          exact ⟨now, le_refl now,
            entityInv_recordEvent W now tb0 nt s0 hbd hwd he0 (by omega)⟩
        | true =>
          by_cases hcd : nt.cooldownPeriod ≤ now - s0.suspendedAt
          · rw [decideKey_recover_raw nt ⟨n, i⟩ now s0 hst hsusp hcd]
            exact ⟨now, le_refl now,
              entityInv_recordEvent W now now nt _ hbd hwd
                (entityInv_empty W now _ rfl) (le_refl now)⟩
          · rw [decideKey_suspended_deny nt ⟨n, i⟩ now s0 hst hsusp (by omega)]
            exact ⟨tb0, by omega, he0⟩
    · rw [ShouldNotify_frame nt n i now hk] at hs
      obtain ⟨tb, htb, he⟩ := hinv k s hs
      exact ⟨tb, by omega, he⟩

theorem runSeq_mapInv (W : Int) :
    ∀ (calls : List (String × String × Int)) (nt : NotificationThrottler)
      (tc : Int), nt.bucketDuration = 5 → nt.windowDuration = W →
      mapInv W nt tc →
      List.Chain (· ≤ ·) tc (calls.map (fun c => c.2.2)) →
      ∃ tf, mapInv W (runSeq nt calls) tf := by
  intro calls
  induction calls with
  | nil =>
    intro nt tc _ _ hinv _
    exact ⟨tc, hinv⟩
  | cons c rest ih =>
    intro nt tc hbd hwd hinv hch
    simp only [List.map_cons] at hch
    rcases List.chain_cons.mp hch with ⟨h1, h2⟩
    have hstep := ShouldNotify_mapInv W nt c.1 c.2.1 c.2.2 tc hbd hwd hinv h1
    have hcfg := ShouldNotify_config nt c.1 c.2.1 c.2.2
    show ∃ tf, mapInv W (runSeq (ShouldNotify nt c.1 c.2.1 c.2.2).2 rest) tf
    exact ih (ShouldNotify nt c.1 c.2.1 c.2.2).2 c.2.2 (hcfg.2.1.trans hbd)
      (hcfg.1.trans hwd) hstep h2

/-- Distinct multiples of 5 in the window of `tb`, plus the current bucket
of `tb`, number at most `max 1 ((W + 4) / 5)` (the ceiling of W over the
bucket width, floored at one). -/
theorem entityInv_length (W : Int) (s : throttleState) (tb : Int)
    (h : entityInv W s tb) :
    (s.buckets.length : Int) ≤ max 1 ((W + 4) / 5) := by
  obtain ⟨hnd, hp⟩ := h
  set a := tb - W with ha
  set b0 := 5 * (tb / 5) with hb0
  set S : Finset Int :=
    ((Finset.Ioc a b0).filter (fun m => (5 : Int) ∣ m)) ∪ {b0} with hS
  have hsub : (s.buckets.map (fun b => b.timestamp)).toFinset ⊆ S := by
    intro x hx
    obtain ⟨b, hbmem, hbts⟩ := List.mem_map.mp (List.mem_toFinset.mp hx)
    obtain ⟨hdvd, hle, hor⟩ := hp b hbmem
    rw [hS]
    rcases hor with hwin | heq
    · refine Finset.mem_union_left _ (Finset.mem_filter.mpr
        ⟨Finset.mem_Ioc.mpr ⟨?_, ?_⟩, ?_⟩)
      · rw [← hbts]; exact hwin
      · rw [← hbts]; exact hle
      · rw [← hbts]; exact hdvd
    · refine Finset.mem_union_right _ ?_
      rw [← hbts, heq]
      exact Finset.mem_singleton_self b0
  have hShole : (s.buckets.length : Int) ≤ (S.card : Int) := by
    have h1 := Finset.card_le_card hsub
    rw [List.toFinset_card_of_nodup hnd, List.length_map] at h1
    exact_mod_cast h1
  by_cases hab : a < b0
  · have hbS : b0 ∈ (Finset.Ioc a b0).filter (fun m => (5 : Int) ∣ m) :=
      Finset.mem_filter.mpr
        ⟨Finset.mem_Ioc.mpr ⟨hab, le_refl _⟩, ⟨tb / 5, rfl⟩⟩
    have hSeq : S = (Finset.Ioc a b0).filter (fun m => (5 : Int) ∣ m) := by
      rw [hS]
      exact Finset.union_eq_left.mpr (Finset.singleton_subset_iff.mpr hbS)
    have hinj : ((Finset.Ioc a b0).filter (fun m => (5 : Int) ∣ m)).card ≤
        (Finset.Ioc (a / 5) (tb / 5)).card := by
      refine Finset.card_le_card_of_injOn (fun m => m / 5) ?_ ?_
      · intro m hm
        obtain ⟨hio, hdvd⟩ := Finset.mem_filter.mp hm
        obtain ⟨hlo, hhi⟩ := Finset.mem_Ioc.mp hio
        obtain ⟨q, hq⟩ := hdvd
        subst hq
        rw [Finset.mem_Ioc]
        show a / 5 < 5 * q / 5 ∧ 5 * q / 5 ≤ tb / 5
        constructor <;> omega
      · intro m1 h1 m2 h2 he
        have hd1 := (Finset.mem_filter.mp h1).2
        have hd2 := (Finset.mem_filter.mp h2).2
        have e1 := Int.ediv_mul_cancel hd1
        have e2 := Int.ediv_mul_cancel hd2
        simp only at he
        rw [← e1, ← e2, he]
    have hcic : ((Finset.Ioc (a / 5) (tb / 5)).card : Int) = tb / 5 - a / 5 := by
      rw [Int.card_Ioc]
      have : a / 5 ≤ tb / 5 := by omega
      omega
    have hfin : (S.card : Int) ≤ (W + 4) / 5 := by
      rw [hSeq]
      have h2 : (((Finset.Ioc a b0).filter (fun m => (5 : Int) ∣ m)).card : Int) ≤
          ((Finset.Ioc (a / 5) (tb / 5)).card : Int) := by exact_mod_cast hinj
      rw [hcic] at h2
      omega
    have hge1 : (1 : Int) ≤ (W + 4) / 5 := by omega
    calc (s.buckets.length : Int) ≤ (S.card : Int) := hShole
      _ ≤ (W + 4) / 5 := hfin
      _ ≤ max 1 ((W + 4) / 5) := le_max_right _ _
  · have hempty : Finset.Ioc a b0 = ∅ := Finset.Ioc_eq_empty hab
    have hSeq : S = {b0} := by
      rw [hS, hempty]
      simp
    have : (S.card : Int) = 1 := by rw [hSeq]; simp
    calc (s.buckets.length : Int) ≤ (S.card : Int) := hShole
      _ = 1 := this
      _ ≤ max 1 ((W + 4) / 5) := le_max_left _ _

/-- C7 counterexample.  With windowDuration 7 (not a multiple of the
5-second bucket width), non-decreasing calls at 9 and 10 leave two retained
buckets (starts 5 and 10), exceeding windowDuration / bucketWidth both under
integer division (7 / 5 = 1) and under exact division (2 > 7/5 since
2 * 5 > 7). -/
theorem C7_bounded_bucket_storage_counterexample :
    (([("a", "x", (9 : Int)), ("a", "x", 10)].map (fun c => c.2.2)).Chain'
      (· ≤ ·)) ∧
    ((runSeq (NewNotificationThrottler ⟨7, 3, 0⟩)
        [("a", "x", 9), ("a", "x", 10)]).state ⟨"a", "x"⟩).map
        (fun s => s.buckets.length) = some 2 ∧
    ¬ ((2 : Int) ≤ 7 / 5) ∧ ¬ ((2 : Int) * 5 ≤ 7) := by
  refine ⟨?_, by decide, by decide, by decide⟩
  exact List.Chain.cons (by norm_num) List.Chain.nil

/-- C7 (amended).  Bounded bucket storage: in every entity state reachable
from a fresh throttler by any sequence of `ShouldNotify` calls with
non-decreasing timestamps, bucket start times are pairwise distinct (at most
one bucket per truncated start time), and the number of retained buckets is
at most max 1 (⌈W / 5⌉) — equal to W / bucketWidth when W is a positive
multiple of the 5-second bucket width, but one more when the bucket width
does not divide W, and one bucket even when W < 5 (the original W / 5 bound
fails in those cases, see the counterexample). -/
theorem C7_bounded_bucket_storage (W C : Int) (T : Nat)
    (calls : List (String × String × Int))
    (hmono : (calls.map (fun c => c.2.2)).Chain' (· ≤ ·)) :
    ∀ k s, (runSeq (NewNotificationThrottler ⟨W, (T : Int), C⟩) calls).state k =
        some s →
      (s.buckets.map (fun b => b.timestamp)).Nodup ∧
      (s.buckets.length : Int) ≤ max 1 ((W + 4) / 5) := by
  set nt0 := NewNotificationThrottler ⟨W, (T : Int), C⟩ with hnt0
  have hinv0 : ∀ tc, mapInv W nt0 tc := by
    intro tc k s hs
    exact Option.noConfusion hs
  cases calls with
  | nil =>
    intro k s hs
    exact Option.noConfusion hs
  | cons c rest =>
    have hmono' : List.Chain (· ≤ ·) c.2.2 (rest.map (fun x => x.2.2)) := hmono
    have hch : List.Chain (· ≤ ·) c.2.2 ((c :: rest).map (fun x => x.2.2)) := by
      simp only [List.map_cons]
      exact List.Chain.cons (le_refl _) hmono'
    obtain ⟨tf, hinv⟩ := runSeq_mapInv W (c :: rest) nt0 c.2.2 rfl rfl
      (hinv0 c.2.2) hch
    intro k s hs
    obtain ⟨tb, _, he⟩ := hinv k s hs
    exact ⟨he.1, entityInv_length W s tb he⟩

theorem C7_bounded_bucket_storage_witness :
    (([("a", "x", (9 : Int)), ("a", "x", 10)].map (fun c => c.2.2)).Chain'
      (· ≤ ·)) ∧
    ((runSeq (NewNotificationThrottler ⟨12, ((3 : Nat) : Int), 0⟩)
        [("a", "x", 9), ("a", "x", 10)]).state ⟨"a", "x"⟩ =
      some ⟨[⟨5, 1⟩, ⟨10, 1⟩], false, 0, 5⟩) ∧
    ((([⟨5, 1⟩, ⟨10, 1⟩] : List eventBucket).map (fun b => b.timestamp)).Nodup ∧
      ((([⟨5, 1⟩, ⟨10, 1⟩] : List eventBucket).length : Int) ≤
        max 1 ((12 + 4) / 5))) := by
  have hch : (([("a", "x", (9 : Int)), ("a", "x", 10)].map
      (fun c => c.2.2)).Chain' (· ≤ ·)) :=
    List.Chain.cons (by norm_num) List.Chain.nil
  refine ⟨hch, by decide, ?_⟩
  exact C7_bounded_bucket_storage 12 0 3 [("a", "x", 9), ("a", "x", 10)]
    hch ⟨"a", "x"⟩ ⟨[⟨5, 1⟩, ⟨10, 1⟩], false, 0, 5⟩ (by decide)

end Notidock
